import Mathlib

/- Shallow embedding of robertlestak/k8s-secret-template (main.go, together
   with the functions that only occur in the other two program variants in
   the repository: the metadata-patch maintenance mode and the trimming
   variant of removeComments).

   Modelling conventions:
   * Go map[string]string is modelled as `GoMap := Option (List (String × String))`:
     `none` is a nil map, `some l` is an allocated map whose entries are `l`
     (a Go map has pairwise distinct keys; theorems that need this carry a
     `GoMapWF` hypothesis).  Writing into a nil map aborts the Go program,
     so the merge helper returns `Option`: `none` models that abort.
   * Map-object identity and in-place mutation (needed for the frame claim
     about the merge helper) are modelled separately in `namespace HeapModel`
     with an explicit store from references to map contents.
   * The kubernetes client is modelled as a `Gateway` of response oracles,
     and the apply phase returns the list of gateway `Call`s it makes, in
     order, next to its error result.  -/

abbrev GoMap := Option (List (String × String))

/-- Lookup in an association list (first binding wins, as Go maps have
distinct keys). -/
def lookupA (l : List (String × String)) (k : String) : Option String :=
  (l.find? (fun p => p.1 == k)).map Prod.snd

/-- Lookup in a Go map value; a nil map reads as empty. -/
def goLookup : GoMap → String → Option String
  | none, _ => none
  | some l, k => lookupA l k

/-- Go map assignment m[k] = v on the entry list: replace the binding if the
key is present, otherwise append it. -/
def goInsert (l : List (String × String)) (k v : String) : List (String × String) :=
  if l.any (fun p => p.1 == k) then
    l.map (fun p => if p.1 == k then (k, v) else p)
  else l ++ [(k, v)]

/-- Well-formed Go map: allocated maps have pairwise distinct keys. -/
def GoMapWF : GoMap → Prop
  | none => True
  | some l => (l.map Prod.fst).Nodup

/-- main.go mergeMapStringString: `for k, v := range annotationsToMerge
\x7b annotations[k] = v \x7d; return annotations`.  Iterating a nil or empty
map performs zero writes and returns the base unchanged; the first write
into a nil base aborts the program (modelled as `none`). -/
def mergeMapStringString (annotations toMerge : GoMap) : Option GoMap :=
  match toMerge with
  | none => some annotations
  | some [] => some annotations
  | some entries =>
    match annotations with
    | none => none
    | some base =>
      some (some (entries.foldl (fun acc p => goInsert acc p.1 p.2) base))

/- ------------------------------------------------------------------ -/
/- Data model: the fields of corev1.Secret that the program touches.   -/
/- ------------------------------------------------------------------ -/

structure K8sSecret where
  Name : String
  Namespace : String
  Labels : GoMap
  Annotations : GoMap
  Data : GoMap
  ResourceVersion : String
  UID : String
  CreationTimestamp : Nat
deriving DecidableEq

/-- main.go updateSecretData, body of the inner loop for one template:
find the first live secret with the same name and namespace; no match
passes the template through, a match merges the live secret's metadata
maps with the template's (template entries inserted last, so they win)
and replaces the template with the live secret carrying the merged maps.
`none` models the program aborting inside a merge. -/
def reconcileOne (tmpl : K8sSecret) (existingSecrets : List K8sSecret) : Option K8sSecret :=
  match existingSecrets.find? (fun es => tmpl.Name == es.Name && tmpl.Namespace == es.Namespace) with
  | none => some tmpl
  | some es =>
    match mergeMapStringString es.Annotations tmpl.Annotations,
          mergeMapStringString es.Labels tmpl.Labels with
    | some a, some lb => some { es with Annotations := a, Labels := lb }
    | _, _ => none

/-- main.go updateSecretData: reconcile every template against the fetched
live set, in template order.  (The Go loop updates newSecrets in place; with
the inputs unaliased — distinct template keys, as the design assumes — this
is the same as the per-element transformation.) -/
def updateSecretData : List K8sSecret → List K8sSecret → Option (List K8sSecret)
  | [], _ => some []
  | n :: rest, existingSecrets =>
    match reconcileOne n existingSecrets, updateSecretData rest existingSecrets with
    | some r, some rs => some (r :: rs)
    | _, _ => none

/-- Key of a secret, used for matching. -/
def secretKey (s : K8sSecret) : String × String := (s.Namespace, s.Name)

instance (m : GoMap) : Decidable (GoMapWF m) :=
  match m with
  | none => .isTrue trivial
  | some l => (inferInstance : Decidable ((l.map Prod.fst).Nodup))

/-- Template used in concrete instances: declares metadata, empty identity. -/
def tmplW : K8sSecret :=
  { Name := "s1", Namespace := "a", Labels := some [("x", "1")],
    Annotations := none, Data := some [("td", "tv")],
    ResourceVersion := "", UID := "", CreationTimestamp := 0 }

/-- Matching live secret with controller-written data. -/
def liveW : K8sSecret :=
  { Name := "s1", Namespace := "a", Labels := some [("x", "0"), ("y", "2")],
    Annotations := some [], Data := some [("k", "v")],
    ResourceVersion := "5", UID := "u1", CreationTimestamp := 7 }

/-- Reconciled result for tmplW against liveW. -/
def reconW : K8sSecret :=
  { Name := "s1", Namespace := "a", Labels := some [("x", "1"), ("y", "2")],
    Annotations := some [], Data := some [("k", "v")],
    ResourceVersion := "5", UID := "u1", CreationTimestamp := 7 }

/- ------------------------------------------------------------------ -/
/- Applier: the kubernetes client is an oracle Gateway; each apply     -/
/- function returns its error result and the ordered list of calls.    -/
/- ------------------------------------------------------------------ -/

/-- One call issued against the secret store. -/
inductive Call where
  | list (ns : String)
  | get (ns name : String)
  | create (s : K8sSecret)
  | update (s : K8sSecret)
  | delete (ns name : String)
  | patch (ns name : String) (labels : GoMap) (anns : GoMap)
deriving DecidableEq

/-- Oracle responses of the cluster: `none` is success, `some e` the error
message; List returns the namespace's live secrets or an error. -/
structure Gateway where
  listRes : String → Except String (List K8sSecret)
  getErr : String → String → Option String
  createErr : K8sSecret → Option String
  updateErr : K8sSecret → Option String
  deleteErr : String → String → Option String
  patchErr : String → String → GoMap → GoMap → Option String

/-- main.go deleteRecreateSecret: clear resourceVersion, UID and
creationTimestamp on the object, then Get (propagating the error when the
object is gone), then Delete, then Create with the cleaned object. -/
def deleteRecreateSecret (g : Gateway) (secret : K8sSecret) : Option String × List Call :=
  let s := { secret with ResourceVersion := "", UID := "", CreationTimestamp := 0 }
  match g.getErr s.Namespace s.Name with
  | some e => (some e, [Call.get s.Namespace s.Name])
  | none =>
    match g.deleteErr s.Namespace s.Name with
    | some e => (some e, [Call.get s.Namespace s.Name, Call.delete s.Namespace s.Name])
    | none =>
      match g.createErr s with
      | some e => (some e,
          [Call.get s.Namespace s.Name, Call.delete s.Namespace s.Name, Call.create s])
      | none => (none,
          [Call.get s.Namespace s.Name, Call.delete s.Namespace s.Name, Call.create s])

/-- main.go ensureCreateSecret: a secret with a UID is updated, one without
is created; either failure falls back to deleteRecreateSecret. -/
def ensureCreateSecret (g : Gateway) (secret : K8sSecret) : Option String × List Call :=
  if secret.UID ≠ "" then
    match g.updateErr secret with
    | some _ =>
      let r := deleteRecreateSecret g secret
      (r.1, Call.update secret :: r.2)
    | none => (none, [Call.update secret])
  else
    match g.createErr secret with
    | some _ =>
      let r := deleteRecreateSecret g secret
      (r.1, Call.create secret :: r.2)
    | none => (none, [Call.create secret])

/-- main.go updateK8sSecrets: apply each reconciled secret in order,
aborting the queue at the first failure. -/
def updateK8sSecrets (g : Gateway) : List K8sSecret → Option String × List Call
  | [] => (none, [])
  | s :: rest =>
    let r := ensureCreateSecret g s
    match r.1 with
    | some e => (some e, r.2)
    | none =>
      let r2 := updateK8sSecrets g rest
      (r2.1, r.2 ++ r2.2)

/-- Gateway used in concrete instances: Update always fails, Get/Delete
succeed, Create succeeds. -/
def gwRecreate : Gateway :=
  { listRes := fun _ => Except.ok []
    getErr := fun _ _ => none
    createErr := fun _ => none
    updateErr := fun _ => some "admission denied"
    deleteErr := fun _ _ => none
    patchErr := fun _ _ _ _ => none }

/-- Unmatched template in namespace b. -/
def tmplB : K8sSecret :=
  { Name := "s2", Namespace := "b", Labels := none, Annotations := none,
    Data := none, ResourceVersion := "", UID := "", CreationTimestamp := 0 }

/-- Gateway on which every call succeeds and List returns nothing. -/
def gwOk : Gateway :=
  { listRes := fun _ => Except.ok []
    getErr := fun _ _ => none
    createErr := fun _ => none
    updateErr := fun _ => none
    deleteErr := fun _ _ => none
    patchErr := fun _ _ _ _ => none }

/- ------------------------------------------------------------------ -/
/- Namespace indexer.                                                  -/
/- ------------------------------------------------------------------ -/

/-- main.go secretNamespaces: walk the templates; append a namespace unless
it was already collected (the labelled inner loop is the membership scan). -/
def secretNamespaces (secrets : List K8sSecret) : List String :=
  secrets.foldl (fun nss s => if s.Namespace ∈ nss then nss else nss ++ [s.Namespace]) []

/-- The same fold on a bare list of namespace names. -/
def nsFold (acc : List String) (l : List String) : List String :=
  l.foldl (fun a x => if x ∈ a then a else a ++ [x]) acc

/-- Specification-side description of "the distinct names in first-seen
order": keep the head, drop its later duplicates, recurse. -/
def firstSeenOrder : List String → List String
  | [] => []
  | x :: xs => x :: firstSeenOrder (xs.filter (fun y => y ≠ x))
termination_by l => l.length
decreasing_by
  simp only [List.length_cons]
  exact Nat.lt_succ_of_le (List.length_filter_le _ xs)

/-- Template carrying only a namespace, used to state stability of the
indexer on its own output. -/
def mkNsTemplate (n : String) : K8sSecret :=
  { Name := "", Namespace := n, Labels := none, Annotations := none,
    Data := none, ResourceVersion := "", UID := "", CreationTimestamp := 0 }

/- ------------------------------------------------------------------ -/
/- Heap view of the merge helper, for the object-identity claim.       -/
/- ------------------------------------------------------------------ -/

namespace HeapModel

/-- A map value in Go is a header: nil or a reference to a map object. -/
abbrev MapV := Option Nat

/-- The store gives every map object its current entries. -/
abbrev Store := Nat → List (String × String)

/-- Reading through a map value; nil reads as empty. -/
def storeRead (σ : Store) : MapV → List (String × String)
  | none => []
  | some r => σ r

/-- Overwriting one map object. -/
def storeWrite (σ : Store) (r : Nat) (l : List (String × String)) : Store :=
  fun r' => if r' = r then l else σ r'

/-- main.go mergeMapStringString on the heap: iterate the entries reachable
from toMerge and assign each into the map object referenced by the base
header; zero iterations leave the store untouched and return the base
header, a first write through a nil header aborts, and otherwise the writes
land in the base's map object — the function returns the base header
itself, never a fresh object. -/
def mergeMapStringString (σ : Store) (annotations toMerge : MapV) :
    Option (Store × MapV) :=
  match storeRead σ toMerge with
  | [] => some (σ, annotations)
  | entries =>
    match annotations with
    | none => none
    | some r =>
      some (storeWrite σ r (entries.foldl (fun acc p => goInsert acc p.1 p.2) (σ r)),
            some r)

end HeapModel

/-- Store holding an empty map object 0 and a map object 1 with one entry. -/
def storeW : HeapModel.Store := fun r => if r = 1 then [("x", "1")] else []

/-- Template whose annotations collide with a live secret that has no
annotations map at all (nil). -/
def tmplNilCase : K8sSecret :=
  { Name := "s3", Namespace := "c", Labels := none,
    Annotations := some [("a", "1")], Data := none,
    ResourceVersion := "", UID := "", CreationTimestamp := 0 }

/-- Matching live secret with nil annotations (a secret created without
metadata.annotations decodes to a nil map). -/
def liveNilCase : K8sSecret :=
  { Name := "s3", Namespace := "c", Labels := none, Annotations := none,
    Data := some [("k", "v")], ResourceVersion := "9", UID := "u3",
    CreationTimestamp := 3 }

/- ------------------------------------------------------------------ -/
/- Document text processing (strings as lists of characters).          -/
/- ------------------------------------------------------------------ -/

abbrev Str := List Char

/-- strings.Split(s, chr(10)): split into lines at each newline; the empty
string yields one empty line, a trailing newline yields a final empty line. -/
def splitLines : Str → List Str
  | [] => [[]]
  | c :: rest =>
    if c = '\n' then [] :: splitLines rest
    else
      match splitLines rest with
      | [] => [[c]]
      | l :: ls => (c :: l) :: ls

/-- strings.Join(lines, chr(10)). -/
def joinLines : List Str → Str
  | [] => []
  | [l] => l
  | l :: ls => l ++ '\n' :: joinLines ls

/-- strings.HasPrefix(line, the comment marker): true exactly when the very
first character is the marker. -/
def startsHash : Str → Bool
  | [] => false
  | c :: _ => c = '#'

/-- main.go removeComments: split into lines, keep every line that does not
begin (at its first character) with the comment marker, join back. -/
def removeComments (doc : Str) : Str :=
  joinLines ((splitLines doc).filter (fun line => !(startsHash line)))

/-- The whitespace characters Go's strings.TrimSpace removes (the ASCII
ones; the templates at issue are ASCII). -/
def isGoSpace (c : Char) : Bool :=
  c = ' ' || c = '\t' || c = '\n' || c = '\r' || c.toNat = 11 || c.toNat = 12

/-- Comment stripping as the specification words it (and as the variant in
the second program file implements it): a line is dropped when its first
character after trimming leading whitespace is the marker. -/
def removeCommentsTrimSpec (doc : Str) : Str :=
  joinLines ((splitLines doc).filter
    (fun line => !(startsHash (line.dropWhile isGoSpace))))

/- ------------------------------------------------------------------ -/
/- Input pipeline and the one-shot run (main.go main).                 -/
/- ------------------------------------------------------------------ -/

/-- strings.TrimSpace (over the ASCII space characters). -/
def trimSpaceStr (s : Str) : Str :=
  ((s.dropWhile isGoSpace).reverse.dropWhile isGoSpace).reverse

/-- strings.Split(s, the three-dash document delimiter), left to right,
non-overlapping. -/
def splitDocsAux : Str → Str → List Str
  | [], acc => [acc.reverse]
  | '-' :: '-' :: '-' :: rest, acc => acc.reverse :: splitDocsAux rest []
  | c :: rest, acc => splitDocsAux rest (c :: acc)

def splitDocs (s : Str) : List Str := splitDocsAux s []

/-- What the deserializer (an external collaborator) reports for one
document: a secret, an object of another kind, or — the defensive branch in
parseFilesAsSecrets — an object with the secret kind that is not a secret
value. -/
inductive DecObj where
  | secretObj (s : K8sSecret)
  | otherKind
  | secretKindWrongType

/-- The process environment: the template directory listing (`none` when
ReadDir fails), file contents by path, and the deserializer's verdict per
document. -/
structure World where
  dirEntries : Option (List (String × Bool))
  fileContent : String → Except String Str
  decodeDoc : Str → Except String DecObj

/-- main.go getSecretFiles: a directory read error is logged and yields nil;
otherwise the non-directory entries are returned joined to the directory. -/
def getSecretFiles (w : World) (dir : String) : List String :=
  match w.dirEntries with
  | none => []
  | some entries => (entries.filter (fun e => !e.2)).map (fun e => dir ++ "/" ++ e.1)

/-- Documents of one file, as parseFilesAsSecrets handles them: blank
documents are skipped, comments are stripped, then-blank documents are
skipped, a decode error or a secret-kinded non-secret aborts, and
non-secret kinds are discarded. -/
def parseDocs (w : World) : List Str → Except String (List K8sSecret)
  | [] => .ok []
  | d :: ds =>
    if trimSpaceStr d = [] then parseDocs w ds
    else
      let d2 := removeComments d
      if trimSpaceStr d2 = [] then parseDocs w ds
      else
        match w.decodeDoc d2 with
        | .error e => .error e
        | .ok (DecObj.secretObj s) =>
          match parseDocs w ds with
          | .error e => .error e
          | .ok rest => .ok (s :: rest)
        | .ok DecObj.otherKind => parseDocs w ds
        | .ok DecObj.secretKindWrongType => .error "unexpected object type"

/-- main.go parseFilesAsSecrets: read each file (a read error aborts),
split it into documents, parse them; templates keep file order then
in-file order. -/
def parseFilesAsSecrets (w : World) : List String → Except String (List K8sSecret)
  | [] => .ok []
  | f :: fs =>
    match w.fileContent f with
    | .error e => .error e
    | .ok content =>
      match parseDocs w (splitDocs content) with
      | .error e => .error e
      | .ok ss =>
        match parseFilesAsSecrets w fs with
        | .error e => .error e
        | .ok rest => .ok (ss ++ rest)

/-- The discovery loop of main.go main: one List call per indexed
namespace, fail-fast, concatenating the live secrets. -/
def fetchAll (g : Gateway) : List String → Except String (List K8sSecret) × List Call
  | [] => (.ok [], [])
  | ns :: rest =>
    match g.listRes ns with
    | .error e => (.error e, [Call.list ns])
    | .ok s =>
      let r := fetchAll g rest
      match r.1 with
      | .error e => (.error e, Call.list ns :: r.2)
      | .ok more => (.ok (s ++ more), Call.list ns :: r.2)

/-- main.go main for a given template directory: list files, parse
templates (fatal on error), index namespaces, fetch live secrets (fatal on
error), reconcile (an aborted merge stops the run), apply.  The second
component is every gateway call made, in order. -/
def runMain (w : World) (g : Gateway) (dir : String) : Except String Unit × List Call :=
  match parseFilesAsSecrets w (getSecretFiles w dir) with
  | .error e => (.error e, [])
  | .ok sec =>
    let fr := fetchAll g (secretNamespaces sec)
    match fr.1 with
    | .error e => (.error e, fr.2)
    | .ok allSecrets =>
      match updateSecretData sec allSecrets with
      | none => (.error "assignment to entry in nil map", fr.2)
      | some us =>
        let ur := updateK8sSecrets g us
        match ur.1 with
        | some e => (.error e, fr.2 ++ ur.2)
        | none => (.ok (), fr.2 ++ ur.2)

/-- World whose template directory cannot be read. -/
def wNoDir : World :=
  { dirEntries := none
    fileContent := fun _ => .error "unreadable"
    decodeDoc := fun _ => .error "no decode" }

/-- World with one template file that cannot be read. -/
def wBadFile : World :=
  { dirEntries := some [("secrets.yaml", false)]
    fileContent := fun _ => .error "permission denied"
    decodeDoc := fun _ => .error "no decode" }

/- ------------------------------------------------------------------ -/
/- Maintenance mode (the metadata-patch program variant).              -/
/- ------------------------------------------------------------------ -/

/-- strings.Contains: scan the haystack for the needle as a prefix of some
suffix. -/
def strContains : Str → Str → Bool
  | hay, pat =>
    if pat.isPrefixOf hay then true
    else
      match hay with
      | [] => false
      | _ :: t => strContains t pat

/-- strings.Contains(err.Error(), the not-found marker). -/
def containsNotFound (e : String) : Bool :=
  strContains e.toList "not found".toList

/-- patchSecretMetadata of the metadata-patch variant: marshal a partial
patch holding only the secret's labels and annotations (marshalling a
string map cannot fail), issue one Patch call, and treat a response whose
message contains the not-found marker as success; any other error
propagates.  The call trace is always that single Patch. -/
def patchSecretMetadata (g : Gateway) (secret : K8sSecret) : Option String × List Call :=
  (match g.patchErr secret.Namespace secret.Name secret.Labels secret.Annotations with
   | none => none
   | some e => if containsNotFound e then none else some e,
   [Call.patch secret.Namespace secret.Name secret.Labels secret.Annotations])

/-- updateK8sSecretsMetadata: patch each secret in order, fail-fast. -/
def updateK8sSecretsMetadata (g : Gateway) : List K8sSecret → Option String × List Call
  | [] => (none, [])
  | s :: rest =>
    match (patchSecretMetadata g s).1 with
    | some e => (some e, (patchSecretMetadata g s).2)
    | none =>
      ((updateK8sSecretsMetadata g rest).1,
       (patchSecretMetadata g s).2 ++ (updateK8sSecretsMetadata g rest).2)

/-- Gateway whose Patch always answers not-found. -/
def gwNotFound : Gateway :=
  { listRes := fun _ => Except.ok []
    getErr := fun _ _ => none
    createErr := fun _ => none
    updateErr := fun _ => none
    deleteErr := fun _ _ => none
    patchErr := fun _ _ _ _ => some "secrets s2 not found" }

/- ------------------------------------------------------------------ -/
/- Lemmas and theorems.                                                -/
/- ------------------------------------------------------------------ -/

lemma lookupA_nil (k : String) : lookupA [] k = none := rfl

lemma lookupA_cons (p : String × String) (l : List (String × String)) (k : String) :
    lookupA (p :: l) k = if p.1 = k then some p.2 else lookupA l k := by
  by_cases h : p.1 = k
  · simp [lookupA, List.find?, h]
  · simp only [lookupA, List.find?]
    have : (p.1 == k) = false := by simp [h]
    simp [this, h]

lemma lookupA_eq_none_of_not_mem_keys {l : List (String × String)} {k : String}
    (h : k ∉ l.map Prod.fst) : lookupA l k = none := by
  induction l with
  | nil => rfl
  | cons p tl ih =>
    simp only [List.map_cons, List.mem_cons] at h
    push_neg at h
    rw [lookupA_cons]
    simp [Ne.symm h.1, ih h.2]

lemma lookupA_append (l1 l2 : List (String × String)) (k : String) :
    lookupA (l1 ++ l2) k = (lookupA l1 k).orElse (fun _ => lookupA l2 k) := by
  induction l1 with
  | nil => simp [lookupA_nil, Option.orElse]
  | cons p tl ih =>
    rw [List.cons_append, lookupA_cons, lookupA_cons]
    by_cases hpk : p.1 = k
    · simp [hpk, Option.orElse]
    · simp [hpk, ih]

lemma lookupA_map_replace (k v : String) (l : List (String × String)) (k' : String) :
    lookupA (l.map (fun p => if p.1 == k then (k, v) else p)) k'
      = if k' = k then (if l.any (fun p => p.1 == k) then some v else none)
        else lookupA l k' := by
  induction l with
  | nil => by_cases h : k' = k <;> simp [lookupA_nil, h]
  | cons p tl ih =>
    by_cases hpk : p.1 = k
    · rw [List.map_cons]
      simp only [hpk, beq_self_eq_true, if_pos]
      rw [lookupA_cons, lookupA_cons]
      by_cases hk' : k' = k
      · simp [hk', hpk, List.any_cons]
      · have h1 : ¬(k = k') := fun h => hk' h.symm
        have h2 : ¬(p.1 = k') := by rw [hpk]; exact h1
        simp only [if_neg h1, if_neg h2, if_neg hk', ih]
    · have hbeq : (p.1 == k) = false := by simp [hpk]
      rw [List.map_cons]
      simp only [hbeq]
      rw [if_neg (by simp), lookupA_cons, lookupA_cons]
      by_cases hp' : p.1 = k'
      · have hk' : ¬(k' = k) := by rw [← hp']; exact fun h => hpk h
        simp [hp', hk']
      · simp only [if_neg hp', ih, List.any_cons, hbeq, Bool.false_or]

lemma lookupA_goInsert (l : List (String × String)) (k v k' : String) :
    lookupA (goInsert l k v) k' = if k' = k then some v else lookupA l k' := by
  unfold goInsert
  by_cases hany : l.any (fun p => p.1 == k)
  · simp only [hany, if_true]
    rw [lookupA_map_replace]
    by_cases hk' : k' = k <;> simp [hk', hany]
  · simp only [hany, if_false, Bool.false_eq_true]
    rw [lookupA_append]
    have hnone : lookupA l k = none := by
      apply lookupA_eq_none_of_not_mem_keys
      intro hmem
      rcases List.mem_map.mp hmem with ⟨q, hq, hquk⟩
      exact hany (List.any_eq_true.mpr ⟨q, hq, by simp [hquk]⟩)
    by_cases hk' : k' = k
    · subst hk'
      simp [hnone, lookupA_cons, Option.orElse]
    · have hkk : ¬(k = k') := fun h => hk' h.symm
      have hone : lookupA [(k, v)] k' = none := by
        rw [lookupA_cons]
        simp [hkk, lookupA_nil]
      rw [hone]
      cases h : lookupA l k' <;> simp [Option.orElse, hk']

lemma lookupA_foldl_goInsert (entries : List (String × String)) :
    ∀ (base : List (String × String)) (k : String),
      (entries.map Prod.fst).Nodup →
      lookupA (entries.foldl (fun acc p => goInsert acc p.1 p.2) base) k
        = (lookupA entries k).orElse (fun _ => lookupA base k) := by
  induction entries with
  | nil => intro base k _; simp [lookupA_nil, Option.orElse]
  | cons e tl ih =>
    intro base k hnd
    simp only [List.map_cons, List.nodup_cons] at hnd
    rw [List.foldl_cons]
    rw [ih (goInsert base e.1 e.2) k hnd.2]
    rw [lookupA_goInsert, lookupA_cons]
    by_cases hk : e.1 = k
    · subst hk
      have : lookupA tl e.1 = none := lookupA_eq_none_of_not_mem_keys hnd.1
      simp [this, Option.orElse]
    · have hke : ¬(k = e.1) := fun h => hk h.symm
      simp only [if_neg hk, if_neg hke]

/-- Core extensional description of the merge: when it does not abort, the
result reads as the to-merge map first, falling back to the base map. -/
lemma mergeMapStringString_lookup {a t : GoMap} {r : GoMap}
    (hwf : GoMapWF t) (h : mergeMapStringString a t = some r) (k : String) :
    goLookup r k = (goLookup t k).orElse (fun _ => goLookup a k) := by
  unfold mergeMapStringString at h
  match t, h with
  | none, h =>
    cases h
    simp [goLookup, Option.orElse]
  | some [], h =>
    cases h
    simp [goLookup, lookupA_nil, Option.orElse]
  | some (e :: es), h =>
    match a, h with
    | some base, h =>
      cases h
      simp only [goLookup]
      exact lookupA_foldl_goInsert (e :: es) base k hwf

lemma updateSecretData_some_get :
    ∀ (news ex res : List K8sSecret), updateSecretData news ex = some res →
      res.length = news.length ∧
      ∀ i (hi : i < news.length) (hi' : i < res.length),
        reconcileOne (news.get ⟨i, hi⟩) ex = some (res.get ⟨i, hi'⟩) := by
  intro news
  induction news with
  | nil =>
    intro ex res h
    simp only [updateSecretData, Option.some.injEq] at h
    subst h
    exact ⟨rfl, fun i hi => absurd hi (by simp at hi)⟩
  | cons n rest ih =>
    intro ex res h
    simp only [updateSecretData] at h
    cases hr : reconcileOne n ex with
    | none => rw [hr] at h; cases h
    | some r =>
      cases hrest : updateSecretData rest ex with
      | none => rw [hr, hrest] at h; cases h
      | some rs =>
        rw [hr, hrest] at h
        simp only [Option.some.injEq] at h
        subst h
        obtain ⟨hlen, hget⟩ := ih ex rs hrest
        refine ⟨by simp [hlen], ?_⟩
        intro i hi hi'
        cases i with
        | zero => simpa using hr
        | succ j =>
          have hj : j < rest.length := by simpa using hi
          have hj' : j < rs.length := by simpa using hi'
          simpa using hget j hj hj'

lemma find?_match_of_unique {ex : List K8sSecret} {t es : K8sSecret}
    (hu : (ex.map secretKey).Nodup)
    (hes : es ∈ ex) (hname : t.Name = es.Name) (hns : t.Namespace = es.Namespace) :
    ex.find? (fun e => t.Name == e.Name && t.Namespace == e.Namespace) = some es := by
  cases hfind : ex.find? (fun e => t.Name == e.Name && t.Namespace == e.Namespace) with
  | none =>
    exfalso
    have := List.find?_eq_none.mp hfind es hes
    simp only [Bool.and_eq_true, beq_iff_eq, not_and] at this
    exact this hname hns
  | some es' =>
    have hmem : es' ∈ ex := List.mem_of_find?_eq_some hfind
    have hpred := List.find?_some hfind
    simp only [Bool.and_eq_true, beq_iff_eq] at hpred
    have hkey : secretKey es' = secretKey es := by
      simp only [secretKey]
      rw [← hpred.1, ← hpred.2, hname, hns]
    have := List.inj_on_of_nodup_map hu hmem hes hkey
    rw [this]

/-- Claim C1: for every template with a matching live secret (same namespace
and name) in the fetched live set, the secret produced by updateSecretData
carries the live secret's data — whatever data the template held — and its
resourceVersion and UID are the live secret's.  The live set has unique
(namespace, name) keys (cluster-enforced), and the hypothesis
`updateSecretData … = some res` states that the run did not abort. -/
theorem updateSecretData_preserves_live_data
    (news ex res : List K8sSecret)
    (hu : (ex.map secretKey).Nodup)
    (hrun : updateSecretData news ex = some res)
    (i : Nat) (hi : i < news.length) (hi' : i < res.length)
    (es : K8sSecret) (hes : es ∈ ex)
    (hname : (news.get ⟨i, hi⟩).Name = es.Name)
    (hns : (news.get ⟨i, hi⟩).Namespace = es.Namespace) :
    (res.get ⟨i, hi'⟩).Data = es.Data
    ∧ (res.get ⟨i, hi'⟩).ResourceVersion = es.ResourceVersion
    ∧ (res.get ⟨i, hi'⟩).UID = es.UID := by
  obtain ⟨-, hget⟩ := updateSecretData_some_get news ex res hrun
  have hrec := hget i hi hi'
  unfold reconcileOne at hrec
  split at hrec
  · rename_i hfind
    exfalso
    have := List.find?_eq_none.mp hfind es hes
    simp only [Bool.and_eq_true, beq_iff_eq, not_and] at this
    exact this hname hns
  · rename_i es' hfind
    have hfind2 := find?_match_of_unique hu hes hname hns
    rw [hfind] at hfind2
    injection hfind2 with hes'
    subst hes'
    split at hrec
    · rename_i a lb ha hl
      simp only [Option.some.injEq] at hrec
      rw [← hrec]
      exact ⟨rfl, rfl, rfl⟩
    · exact absurd hrec (by simp)

/-- Witness for C1 at a concrete template and live set. -/
theorem updateSecretData_preserves_live_data_witness :
    reconW.Data = liveW.Data
    ∧ reconW.ResourceVersion = liveW.ResourceVersion
    ∧ reconW.UID = liveW.UID :=
  updateSecretData_preserves_live_data [tmplW] [liveW] [reconW]
    (by decide) (by decide) 0 (by decide) (by decide) liveW
    (by decide) (by decide) (by decide)

/-- Claim C2: for every template with a matching live secret, the reconciled
labels and annotations maps are the union of the template's and the live
secret's, and on a key present in both the template's value wins.  The union
with template precedence is stated extensionally: every key reads as the
template's binding first, falling back to the live secret's. -/
theorem updateSecretData_metadata_union
    (news ex res : List K8sSecret)
    (hu : (ex.map secretKey).Nodup)
    (hrun : updateSecretData news ex = some res)
    (i : Nat) (hi : i < news.length) (hi' : i < res.length)
    (es : K8sSecret) (hes : es ∈ ex)
    (hname : (news.get ⟨i, hi⟩).Name = es.Name)
    (hns : (news.get ⟨i, hi⟩).Namespace = es.Namespace)
    (hwfa : GoMapWF (news.get ⟨i, hi⟩).Annotations)
    (hwfl : GoMapWF (news.get ⟨i, hi⟩).Labels) :
    (∀ k, goLookup (res.get ⟨i, hi'⟩).Annotations k
        = (goLookup (news.get ⟨i, hi⟩).Annotations k).orElse
            (fun _ => goLookup es.Annotations k))
    ∧ (∀ k, goLookup (res.get ⟨i, hi'⟩).Labels k
        = (goLookup (news.get ⟨i, hi⟩).Labels k).orElse
            (fun _ => goLookup es.Labels k))
    ∧ (∀ k v w, goLookup (news.get ⟨i, hi⟩).Annotations k = some v →
        goLookup es.Annotations k = some w →
        goLookup (res.get ⟨i, hi'⟩).Annotations k = some v)
    ∧ (∀ k v w, goLookup (news.get ⟨i, hi⟩).Labels k = some v →
        goLookup es.Labels k = some w →
        goLookup (res.get ⟨i, hi'⟩).Labels k = some v) := by
  obtain ⟨-, hget⟩ := updateSecretData_some_get news ex res hrun
  have hrec := hget i hi hi'
  unfold reconcileOne at hrec
  split at hrec
  · rename_i hfind
    exfalso
    have := List.find?_eq_none.mp hfind es hes
    simp only [Bool.and_eq_true, beq_iff_eq, not_and] at this
    exact this hname hns
  · rename_i es' hfind
    have hfind2 := find?_match_of_unique hu hes hname hns
    rw [hfind] at hfind2
    injection hfind2 with hes'
    subst hes'
    split at hrec
    · rename_i a lb ha hl
      simp only [Option.some.injEq] at hrec
      have hra : (res.get ⟨i, hi'⟩).Annotations = a := by rw [← hrec]
      have hrl : (res.get ⟨i, hi'⟩).Labels = lb := by rw [← hrec]
      have hannlook := fun k => mergeMapStringString_lookup hwfa ha k
      have hlablook := fun k => mergeMapStringString_lookup hwfl hl k
      refine ⟨?_, ?_, ?_, ?_⟩
      · intro k; rw [hra]; exact hannlook k
      · intro k; rw [hrl]; exact hlablook k
      · intro k v w htv _
        rw [hra, hannlook k, htv]
        rfl
      · intro k v w htv _
        rw [hrl, hlablook k, htv]
        rfl
    · exact absurd hrec (by simp)

/-- Witness for C2 at the concrete template and live set: the colliding
label key x takes the template's value, the live-only key y is kept. -/
theorem updateSecretData_metadata_union_witness :
    goLookup reconW.Labels "x" = some "1"
    ∧ goLookup reconW.Labels "y" = some "2" := by
  have H := updateSecretData_metadata_union [tmplW] [liveW] [reconW]
    (by decide) (by decide) 0 (by decide) (by decide) liveW
    (by decide) (by decide) (by decide) (by decide) (by decide)
  exact ⟨(H.2.1 "x").trans (by decide), (H.2.1 "y").trans (by decide)⟩

/-- Claim C3: when Update fails on a secret carrying a UID, the applier
performs one Get, one Delete and one Create in that order (the recreate
path), with resourceVersion, UID and creationTimestamp cleared on the
object passed to Create; when the Get reports the object absent, no Delete
or Create is issued and the error propagates.  (When the Delete fails the
Go code likewise returns before the Create; that case is included last.) -/
theorem ensureCreateSecret_update_failure
    (g : Gateway) (s : K8sSecret) (e : String)
    (huid : s.UID ≠ "") (hupd : g.updateErr s = some e) :
    let cleaned : K8sSecret :=
      { s with ResourceVersion := "", UID := "", CreationTimestamp := 0 }
    cleaned.ResourceVersion = "" ∧ cleaned.UID = "" ∧ cleaned.CreationTimestamp = 0
    ∧ (∀ ge, g.getErr s.Namespace s.Name = some ge →
        ensureCreateSecret g s = (some ge, [Call.update s, Call.get s.Namespace s.Name]))
    ∧ (g.getErr s.Namespace s.Name = none → g.deleteErr s.Namespace s.Name = none →
        ensureCreateSecret g s =
          (g.createErr cleaned,
           [Call.update s, Call.get s.Namespace s.Name,
            Call.delete s.Namespace s.Name, Call.create cleaned]))
    ∧ (∀ de, g.getErr s.Namespace s.Name = none → g.deleteErr s.Namespace s.Name = some de →
        ensureCreateSecret g s =
          (some de, [Call.update s, Call.get s.Namespace s.Name,
                     Call.delete s.Namespace s.Name])) := by
  intro cleaned
  refine ⟨rfl, rfl, rfl, ?_, ?_, ?_⟩
  · intro ge hget
    simp [ensureCreateSecret, deleteRecreateSecret, huid, hupd, hget]
  · intro hget hdel
    cases hc : g.createErr cleaned <;>
      simp [ensureCreateSecret, deleteRecreateSecret, huid, hupd, hget, hdel, hc, cleaned]
  · intro de hget hdel
    simp [ensureCreateSecret, deleteRecreateSecret, huid, hupd, hget, hdel]

/-- Witness for C3: the full recreate trace at a concrete identified secret
and a gateway whose Update fails. -/
theorem ensureCreateSecret_update_failure_witness :
    ensureCreateSecret gwRecreate reconW =
      (none,
       [Call.update reconW, Call.get "a" "s1", Call.delete "a" "s1",
        Call.create { reconW with ResourceVersion := "", UID := "", CreationTimestamp := 0 }]) :=
  (ensureCreateSecret_update_failure gwRecreate reconW "admission denied"
    (by decide) rfl).2.2.2.2.1 rfl rfl

/-- Claim C4: a template with no matching live secret in the fetched live
set passes through updateSecretData unchanged, and — its identity marker
being empty — the applier then issues exactly one Create for it (no Update,
Get or Delete) when that Create succeeds. -/
theorem updateSecretData_no_match_passthrough_create
    (news ex res : List K8sSecret)
    (hrun : updateSecretData news ex = some res)
    (i : Nat) (hi : i < news.length) (hi' : i < res.length)
    (hnomatch : ∀ es ∈ ex,
      ¬((news.get ⟨i, hi⟩).Name = es.Name ∧ (news.get ⟨i, hi⟩).Namespace = es.Namespace)) :
    res.get ⟨i, hi'⟩ = news.get ⟨i, hi⟩
    ∧ ((news.get ⟨i, hi⟩).UID = "" → ∀ g : Gateway,
        g.createErr (news.get ⟨i, hi⟩) = none →
        ensureCreateSecret g (res.get ⟨i, hi'⟩) = (none, [Call.create (news.get ⟨i, hi⟩)])) := by
  obtain ⟨-, hget⟩ := updateSecretData_some_get news ex res hrun
  have hrec := hget i hi hi'
  have hfind : ex.find?
      (fun es => (news.get ⟨i, hi⟩).Name == es.Name
        && (news.get ⟨i, hi⟩).Namespace == es.Namespace) = none := by
    rw [List.find?_eq_none]
    intro es hes
    have := hnomatch es hes
    simp only [Bool.and_eq_true, beq_iff_eq, not_and]
    intro h1 h2
    exact this ⟨h1, h2⟩
  unfold reconcileOne at hrec
  rw [hfind] at hrec
  simp only [Option.some.injEq] at hrec
  have hpass : res.get ⟨i, hi'⟩ = news.get ⟨i, hi⟩ := hrec.symm
  refine ⟨hpass, ?_⟩
  intro huid g hcreate
  rw [hpass]
  simp only [List.get_eq_getElem] at huid hcreate
  simp [ensureCreateSecret, huid, hcreate]

/-- Witness for C4: a template with no live counterpart passes through and
is created with a single Create call. -/
theorem updateSecretData_no_match_passthrough_create_witness :
    tmplB = tmplB
    ∧ ensureCreateSecret gwOk tmplB = (none, [Call.create tmplB]) := by
  have H := updateSecretData_no_match_passthrough_create [tmplB] [liveW] [tmplB]
    (by decide) 0 (by decide) (by decide) (by decide)
  exact ⟨H.1, H.2 (by decide) gwOk rfl⟩

lemma secretNamespaces_eq_nsFold (secrets : List K8sSecret) :
    secretNamespaces secrets = nsFold [] (secrets.map K8sSecret.Namespace) := by
  unfold secretNamespaces nsFold
  rw [List.foldl_map]

lemma nsFold_eq_firstSeenOrder :
    ∀ (l acc : List String),
      nsFold acc l = acc ++ firstSeenOrder (l.filter (fun y => y ∉ acc)) := by
  intro l
  induction l with
  | nil => intro acc; simp [nsFold, firstSeenOrder]
  | cons x xs ih =>
    intro acc
    by_cases hx : x ∈ acc
    · have h1 : nsFold acc (x :: xs) = nsFold acc xs := by
        simp [nsFold, hx]
      have h2 : (x :: xs).filter (fun y => y ∉ acc) = xs.filter (fun y => y ∉ acc) := by
        simp [List.filter_cons, hx]
      rw [h1, h2, ih]
    · have h1 : nsFold acc (x :: xs) = nsFold (acc ++ [x]) xs := by
        simp [nsFold, hx]
      have h2 : (x :: xs).filter (fun y => y ∉ acc)
          = x :: xs.filter (fun y => y ∉ acc) := by
        simp [List.filter_cons, hx]
      rw [h1, h2, ih]
      have h3 : (xs.filter (fun y => y ∉ acc)).filter (fun y => y ≠ x)
          = xs.filter (fun y => y ∉ acc ++ [x]) := by
        rw [List.filter_filter]
        apply List.filter_congr
        intro y _
        by_cases hyx : y = x
        · simp [hyx, hx]
        · by_cases hya : y ∈ acc <;> simp [hyx, hya]
      rw [firstSeenOrder]
      rw [h3]
      simp

theorem firstSeenOrder_mem : ∀ (l : List String) (a : String),
    a ∈ firstSeenOrder l ↔ a ∈ l
  | [], a => by simp [firstSeenOrder]
  | x :: xs, a => by
    rw [firstSeenOrder]
    by_cases hax : a = x
    · simp [hax]
    · simp only [List.mem_cons, hax, false_or]
      rw [firstSeenOrder_mem (xs.filter (fun y => y ≠ x)) a]
      simp [List.mem_filter, hax]
termination_by l => l.length
decreasing_by
  simp only [List.length_cons]
  exact Nat.lt_succ_of_le (List.length_filter_le _ xs)

theorem firstSeenOrder_nodup : ∀ l : List String, (firstSeenOrder l).Nodup
  | [] => by simp [firstSeenOrder]
  | x :: xs => by
    rw [firstSeenOrder]
    refine List.nodup_cons.mpr ⟨?_, firstSeenOrder_nodup _⟩
    intro hx
    have := (firstSeenOrder_mem _ x).mp hx
    simp [List.mem_filter] at this
termination_by l => l.length
decreasing_by
  simp only [List.length_cons]
  exact Nat.lt_succ_of_le (List.length_filter_le _ xs)

theorem firstSeenOrder_eq_self : ∀ l : List String, l.Nodup → firstSeenOrder l = l
  | [], _ => by simp [firstSeenOrder]
  | x :: xs, h => by
    rw [firstSeenOrder]
    have hx := List.nodup_cons.mp h
    have hfe : xs.filter (fun y => y ≠ x) = xs := by
      apply List.filter_eq_self.mpr
      intro a ha
      simp only [ne_eq, decide_not, Bool.not_eq_true', decide_eq_false_iff_not]
      exact fun he => hx.1 (he ▸ ha)
    rw [hfe, firstSeenOrder_eq_self xs hx.2]
termination_by l => l.length
decreasing_by simp

lemma pairwise_imp_mem {α : Type} {R S : α → α → Prop} :
    ∀ {l : List α}, (∀ a b, a ∈ l → b ∈ l → R a b → S a b) → l.Pairwise R → l.Pairwise S := by
  intro l
  induction l with
  | nil => intro _ _; exact List.Pairwise.nil
  | cons x xs ih =>
    intro himp hp
    rw [List.pairwise_cons] at hp ⊢
    refine ⟨fun b hb =>
      himp x b (List.mem_cons_self _ _) (List.mem_cons_of_mem _ hb) (hp.1 b hb), ih ?_ hp.2⟩
    intro a b ha hb
    exact himp a b (List.mem_cons_of_mem _ ha) (List.mem_cons_of_mem _ hb)

lemma indexOf_filter_lt (p : String → Bool) :
    ∀ (l : List String) (a b : String), a ∈ l.filter p → b ∈ l.filter p →
      (l.filter p).indexOf a < (l.filter p).indexOf b → l.indexOf a < l.indexOf b := by
  intro l
  induction l with
  | nil => intro a b ha _ _; simp at ha
  | cons x xs ih =>
    intro a b ha hb hlt
    by_cases hpx : p x
    · rw [List.filter_cons_of_pos hpx] at ha hb hlt
      by_cases hax : a = x
      · subst hax
        have hba : b ≠ a := by
          intro he
          subst he
          simp [List.indexOf_cons_self] at hlt
        rw [List.indexOf_cons_self]
        rw [List.indexOf_cons_ne _ (Ne.symm hba)]
        exact Nat.succ_pos _
      · by_cases hbx : b = x
        · subst hbx
          rw [List.indexOf_cons_self] at hlt
          exact absurd hlt (Nat.not_lt_zero _)
        · have ha' : a ∈ xs.filter p := by
            rcases List.mem_cons.mp ha with h | h
            · exact absurd h hax
            · exact h
          have hb' : b ∈ xs.filter p := by
            rcases List.mem_cons.mp hb with h | h
            · exact absurd h hbx
            · exact h
          rw [List.indexOf_cons_ne _ (Ne.symm hax), List.indexOf_cons_ne _ (Ne.symm hbx)] at hlt
          rw [List.indexOf_cons_ne _ (Ne.symm hax), List.indexOf_cons_ne _ (Ne.symm hbx)]
          exact Nat.succ_lt_succ (ih a b ha' hb' (Nat.lt_of_succ_lt_succ hlt))
    · rw [List.filter_cons_of_neg hpx] at ha hb hlt
      have hax : a ≠ x := by
        intro he
        have := (List.mem_filter.mp ha).2
        rw [he] at this
        exact hpx this
      have hbx : b ≠ x := by
        intro he
        have := (List.mem_filter.mp hb).2
        rw [he] at this
        exact hpx this
      rw [List.indexOf_cons_ne _ (Ne.symm hax), List.indexOf_cons_ne _ (Ne.symm hbx)]
      exact Nat.succ_lt_succ (ih a b ha hb hlt)

theorem firstSeenOrder_pairwise_indexOf : ∀ l : List String,
    (firstSeenOrder l).Pairwise (fun a b => l.indexOf a < l.indexOf b)
  | [] => by simp [firstSeenOrder]
  | x :: xs => by
    rw [firstSeenOrder]
    rw [List.pairwise_cons]
    constructor
    · intro b hb
      have hbmem := (firstSeenOrder_mem _ b).mp hb
      have hbne : b ≠ x := by simpa using (List.mem_filter.mp hbmem).2
      rw [List.indexOf_cons_self]
      rw [List.indexOf_cons_ne _ (Ne.symm hbne)]
      exact Nat.succ_pos _
    · have IH := firstSeenOrder_pairwise_indexOf (xs.filter (fun y => y ≠ x))
      apply pairwise_imp_mem ?_ IH
      intro a b ha hb hab
      have ha' := (firstSeenOrder_mem _ a).mp ha
      have hb' := (firstSeenOrder_mem _ b).mp hb
      have hane : a ≠ x := by simpa using (List.mem_filter.mp ha').2
      have hbne : b ≠ x := by simpa using (List.mem_filter.mp hb').2
      have hxs := indexOf_filter_lt _ xs a b ha' hb' hab
      rw [List.indexOf_cons_ne _ (Ne.symm hane), List.indexOf_cons_ne _ (Ne.symm hbne)]
      exact Nat.succ_lt_succ hxs
termination_by l => l.length
decreasing_by
  simp only [List.length_cons]
  exact Nat.lt_succ_of_le (List.length_filter_le _ xs)

lemma nsFold_nil_eq (l : List String) : nsFold [] l = firstSeenOrder l := by
  rw [nsFold_eq_firstSeenOrder]
  have : l.filter (fun y => y ∉ ([] : List String)) = l :=
    List.filter_eq_self.mpr (fun a _ => by simp)
  rw [this, List.nil_append]

/-- Claim C10: secretNamespaces returns the distinct namespaces of the
templates, without duplicates, in first-seen order (each earlier output
name first occurs in the input strictly before each later one — no
sorting), it is deterministic (it is a pure function of its input), and it
is stable on its own output: indexing templates built from the result
returns the result. -/
theorem secretNamespaces_spec (secrets : List K8sSecret) :
    (secretNamespaces secrets).Nodup
    ∧ (∀ x, x ∈ secretNamespaces secrets ↔ x ∈ secrets.map K8sSecret.Namespace)
    ∧ (secretNamespaces secrets).Pairwise
        (fun a b => (secrets.map K8sSecret.Namespace).indexOf a
          < (secrets.map K8sSecret.Namespace).indexOf b)
    ∧ secretNamespaces ((secretNamespaces secrets).map mkNsTemplate)
        = secretNamespaces secrets := by
  have he : secretNamespaces secrets = firstSeenOrder (secrets.map K8sSecret.Namespace) := by
    rw [secretNamespaces_eq_nsFold, nsFold_nil_eq]
  refine ⟨?_, ?_, ?_, ?_⟩
  · rw [he]; exact firstSeenOrder_nodup _
  · intro x
    rw [he]
    exact firstSeenOrder_mem _ x
  · rw [he]; exact firstSeenOrder_pairwise_indexOf _
  · have h2 : secretNamespaces ((secretNamespaces secrets).map mkNsTemplate)
        = firstSeenOrder (((secretNamespaces secrets).map mkNsTemplate).map
            K8sSecret.Namespace) := by
      rw [secretNamespaces_eq_nsFold, nsFold_nil_eq]
    have h3 : ((secretNamespaces secrets).map mkNsTemplate).map K8sSecret.Namespace
        = secretNamespaces secrets := by
      rw [List.map_map]
      have hcomp : (K8sSecret.Namespace ∘ mkNsTemplate) = id := funext fun n => rfl
      rw [hcomp, List.map_id]
    rw [h2, h3]
    exact firstSeenOrder_eq_self _ (by rw [he]; exact firstSeenOrder_nodup _)

/-- Counterexample to C7: merging map object 1 into map object 0 returns
map object 0 itself — the same object as the first input, not a fresh
map — and object 0's contents have been changed in place. -/
theorem merge_allocates_new_map_cex :
    HeapModel.mergeMapStringString storeW (some 0) (some 1)
      = some (HeapModel.storeWrite storeW 0 [("x", "1")], some 0)
    ∧ HeapModel.storeWrite storeW 0 [("x", "1")] 0 = [("x", "1")]
    ∧ storeW 0 = [] := ⟨rfl, rfl, rfl⟩

/-- Amended C7: the merge helper does not allocate; whenever it returns, the
returned header is exactly its first argument (the base map object, or nil),
and every map object other than the base — in particular the second input's
object when distinct — is unchanged in the store. -/
theorem merge_returns_base_in_place
    (σ : HeapModel.Store) (a t : HeapModel.MapV)
    (σ' : HeapModel.Store) (r : HeapModel.MapV)
    (h : HeapModel.mergeMapStringString σ a t = some (σ', r)) :
    r = a ∧ ∀ ρ : Nat, a ≠ some ρ → σ' ρ = σ ρ := by
  unfold HeapModel.mergeMapStringString at h
  split at h
  · injection h with h'
    injection h' with h1 h2
    subst h1
    exact ⟨h2.symm ▸ rfl, fun ρ _ => rfl⟩
  · match a, h with
    | some ra, h =>
      injection h with h'
      injection h' with h1 h2
      constructor
      · exact h2.symm
      · intro ρ hρ
        have hne' : ρ ≠ ra := fun he => hρ (by rw [he])
        rw [← h1]
        simp [HeapModel.storeWrite, hne']

/-- Witness for the amended C7 at the concrete store. -/
theorem merge_returns_base_in_place_witness :
    (some 0 : HeapModel.MapV) = some 0
    ∧ ∀ ρ : Nat, (some 0 : HeapModel.MapV) ≠ some ρ →
        HeapModel.storeWrite storeW 0 [("x", "1")] ρ = storeW ρ :=
  merge_returns_base_in_place storeW (some 0) (some 1)
    (HeapModel.storeWrite storeW 0 [("x", "1")]) (some 0) rfl

/-- Claim C8 is false of the code: merging a non-empty template map into a
live secret's nil map does not produce the union — the write into the nil
map aborts the program (assignment to entry in nil map), and the whole
reconciliation step aborts with it. -/
theorem merge_nil_base_fails :
    mergeMapStringString none (some [("a", "1")]) = none
    ∧ updateSecretData [tmplNilCase] [liveNilCase] = none := ⟨rfl, rfl⟩

lemma splitLines_no_newline : ∀ l : Str, ('\n') ∉ l → splitLines l = [l]
  | [], _ => rfl
  | c :: rest, h => by
    have hc : ¬(c = '\n') := fun he => h (he ▸ List.mem_cons_self _ _)
    have h2 : ('\n') ∉ rest := fun hm => h (List.mem_cons_of_mem _ hm)
    rw [splitLines, if_neg hc, splitLines_no_newline rest h2]

lemma splitLines_prepend (l : Str) :
    ∀ (s s1 : Str) (srest : List Str), ('\n') ∉ l →
      splitLines s = s1 :: srest → splitLines (l ++ s) = (l ++ s1) :: srest := by
  induction l with
  | nil => intro s s1 srest _ hs; simpa using hs
  | cons c cl ih =>
    intro s s1 srest hnl hs
    have hc : ¬(c = '\n') := fun he => hnl (he ▸ List.mem_cons_self _ _)
    have h2 : ('\n') ∉ cl := fun hm => hnl (List.mem_cons_of_mem _ hm)
    rw [List.cons_append, splitLines, if_neg hc, ih s s1 srest h2 hs]
    rfl

lemma splitLines_joinLines :
    ∀ (lines : List Str), lines ≠ [] → (∀ l ∈ lines, ('\n') ∉ l) →
      splitLines (joinLines lines) = lines
  | [], h, _ => absurd rfl h
  | [l], _, hnl => by
    rw [joinLines]
    exact splitLines_no_newline l (hnl l (List.mem_singleton.mpr rfl))
  | l :: l2 :: ls, _, hnl => by
    have hj : joinLines (l :: l2 :: ls) = l ++ '\n' :: joinLines (l2 :: ls) := rfl
    rw [hj]
    have hrec := splitLines_joinLines (l2 :: ls) (List.cons_ne_nil _ _)
      (fun a ha => hnl a (List.mem_cons_of_mem _ ha))
    have hsplit : splitLines ('\n' :: joinLines (l2 :: ls)) = [] :: (l2 :: ls) := by
      rw [splitLines, if_pos rfl, hrec]
    have := splitLines_prepend l ('\n' :: joinLines (l2 :: ls)) [] (l2 :: ls)
      (hnl l (List.mem_cons_self _ _)) hsplit
    simpa using this

/-- Claim C9 as stated is false of main.go: its removeComments tests the
raw line, not the line with leading whitespace trimmed.  A line whose first
character after trimming is the marker, but which starts with spaces, is
kept verbatim, where the stated (trimming) behaviour would drop it. -/
theorem removeComments_leading_space_cex :
    removeComments ("  #c".toList ++ '\n' :: "keep".toList)
      = "  #c".toList ++ '\n' :: "keep".toList
    ∧ removeCommentsTrimSpec ("  #c".toList ++ '\n' :: "keep".toList) = "keep".toList
    ∧ removeComments ("  #c".toList ++ '\n' :: "keep".toList)
        ≠ removeCommentsTrimSpec ("  #c".toList ++ '\n' :: "keep".toList) :=
  ⟨by decide, by decide, by decide⟩

/-- Amended C9: main.go's removeComments removes exactly the whole lines
whose first character is the comment marker (no whitespace trimming: a line
with leading blanks before the marker is kept), and leaves every other
line unchanged — in particular a line with an inline trailing comment after
content is kept in full.  (The variant program file tests the trimmed
line instead, matching the spec's wording.) -/
theorem removeComments_filters_hash_lines
    (lines : List Str) (hne : lines ≠ []) (hnl : ∀ l ∈ lines, ('\n') ∉ l) :
    removeComments (joinLines lines)
      = joinLines (lines.filter (fun l => !(startsHash l))) := by
  unfold removeComments
  rw [splitLines_joinLines lines hne hnl]

/-- Witness for the amended C9: the inline-comment line is kept in full,
the marker-led line is removed. -/
theorem removeComments_filters_hash_lines_witness :
    removeComments (joinLines [ "a: b # c".toList, "#x".toList ])
      = "a: b # c".toList :=
  (removeComments_filters_hash_lines [ "a: b # c".toList, "#x".toList ]
    (by decide) (by decide)).trans (by decide)

/-- Claim C5 as stated is false of the code: an unreadable template
directory is not fatal.  getSecretFiles logs the ReadDir error and returns
nil, so the run parses zero templates and completes successfully (no error,
exit status zero) — it does not abort with an error.  It does make no
cluster call, but the abort the claim requires does not happen. -/
theorem runMain_unreadable_dir_succeeds :
    (runMain wNoDir gwOk "templates").1 = Except.ok ()
    ∧ (runMain wNoDir gwOk "templates").2 = [] := ⟨rfl, rfl⟩

/-- Amended C5: an unreadable template file, a document decode failure, or
a wrong decoded type is fatal — parseFilesAsSecrets returns the error and
the run aborts with it before any gateway call (the call trace is empty).
An unreadable template directory, by contrast, is not fatal: the run treats
it as an empty template set and completes successfully, also without any
gateway call. -/
theorem runMain_input_error_fatality (w : World) (g : Gateway) (dir : String) :
    (∀ e, parseFilesAsSecrets w (getSecretFiles w dir) = .error e →
      runMain w g dir = (.error e, []))
    ∧ (w.dirEntries = none → runMain w g dir = (.ok (), [])) := by
  constructor
  · intro e h
    unfold runMain
    rw [h]
  · intro h
    have hf : getSecretFiles w dir = [] := by
      unfold getSecretFiles
      rw [h]
    unfold runMain
    rw [hf]
    rfl

/-- Witness for the amended C5: a concrete unreadable file aborts with its
error and no calls; a concrete unreadable directory ends in success with no
calls. -/
theorem runMain_input_error_fatality_witness :
    runMain wBadFile gwOk "dir" = (Except.error "permission denied", [])
    ∧ runMain wNoDir gwOk "dir" = (Except.ok (), []) :=
  ⟨(runMain_input_error_fatality wBadFile gwOk "dir").1 "permission denied" rfl,
   (runMain_input_error_fatality wNoDir gwOk "dir").2 rfl⟩

/-- Claim C6: a maintenance-mode patch answered "not found" returns success
after exactly that one Patch call, with no further gateway calls; and the
mode's whole run only ever issues Patch calls (so no Create and no Delete),
each carrying exactly the secret's labels and annotations — never data. -/
theorem maintenance_patch_not_found_noop (g : Gateway) (secrets : List K8sSecret) :
    (∀ (s : K8sSecret) (e : String),
      g.patchErr s.Namespace s.Name s.Labels s.Annotations = some e →
      containsNotFound e = true →
      patchSecretMetadata g s
        = (none, [Call.patch s.Namespace s.Name s.Labels s.Annotations]))
    ∧ (∀ c ∈ (updateK8sSecretsMetadata g secrets).2,
        ∃ s ∈ secrets, c = Call.patch s.Namespace s.Name s.Labels s.Annotations) := by
  constructor
  · intro s e hp hc
    unfold patchSecretMetadata
    rw [hp]
    simp [hc]
  · induction secrets with
    | nil =>
      intro c hc
      simp [updateK8sSecretsMetadata] at hc
    | cons s rest ih =>
      intro c hc
      unfold updateK8sSecretsMetadata at hc
      have htr : (patchSecretMetadata g s).2
          = [Call.patch s.Namespace s.Name s.Labels s.Annotations] := rfl
      split at hc
      · rw [htr] at hc
        rcases List.mem_singleton.mp hc with h
        exact ⟨s, List.mem_cons_self _ _, h⟩
      · rw [htr] at hc
        rcases List.mem_append.mp hc with h | h
        · exact ⟨s, List.mem_cons_self _ _, List.mem_singleton.mp h⟩
        · obtain ⟨s', hs', hcs⟩ := ih c h
          exact ⟨s', List.mem_cons_of_mem _ hs', hcs⟩

/-- Witness for C6 at a concrete secret and a not-found gateway. -/
theorem maintenance_patch_not_found_noop_witness :
    patchSecretMetadata gwNotFound tmplB = (none, [Call.patch "b" "s2" none none])
    ∧ ∃ s ∈ [tmplB],
        Call.patch "b" "s2" none none
          = Call.patch s.Namespace s.Name s.Labels s.Annotations := by
  have H := maintenance_patch_not_found_noop gwNotFound [tmplB]
  refine ⟨H.1 tmplB "secrets s2 not found" rfl (by decide), H.2 _ ?_⟩
  decide
